import Mathlib

/-!
Verification of the PyACDC sequential AC/DC power-flow repository.

Shallow embedding of the numerical core (DC network Newton-Raphson solver,
per-unit conversion, DC admittance builder, outage filtering, converter loss
model, converter limit check) over exact rationals.  The external sparse
linear solver (`np.linalg.solve` / `scipy.sparse.linalg.spsolve`) is an
external collaborator and is abstracted as a function parameter; `np.sqrt`
and the complex magnitude `np.abs` are likewise abstracted as a function
parameter `sq` where they occur.
-/

namespace PyACDC

open Matrix

/-! ## DC network power flow (src/PyACDC/dcnetworkpf.py) -/

/-- Input data of `dcnetworkpf` (file dcnetworkpf.py): admittance matrix,
polarity factor, slack / non-slack / droop bus index sets (already 0-based,
mirroring `slack_idx`, `noslack_idx`, `droop_idx`), droop parameters, power
extraction vector, Newton tolerance and iteration cap. -/
structure DCSys (n : ℕ) where
  Ybus : Matrix (Fin n) (Fin n) ℚ
  pol : ℚ
  slack : Finset (Fin n)
  noslack : Finset (Fin n)
  droop : Finset (Fin n)
  PVdroop : Fin n → ℚ
  Pdcset : Fin n → ℚ
  Vdcset : Fin n → ℚ
  dVdcset : Fin n → ℚ
  Pdc : Fin n → ℚ
  tol : ℚ
  itmax : ℕ

variable {n : ℕ}

/-- Specified power injections `Pdc1`: the sign convention flip
`Pdc1 = -Pdc` of line 40, with the droop override
`Pdc1[droop_idx] = -Pdcset[droop_idx]` of line 49. -/
def DCSys.Pdc1 (S : DCSys n) : Fin n → ℚ := fun i =>
  if i ∈ S.droop then -S.Pdcset i else -S.Pdc i

/-- Calculated power injections before the droop addition:
`Pdccalc = pol * Vdc * (Ybusdc @ Vdc)` (line 65). -/
def pcalcBase (S : DCSys n) (V : Fin n → ℚ) : Fin n → ℚ := fun i =>
  S.pol * V i * (S.Ybus.mulVec V) i

/-- Deadband clamp `Vdcsetlh` (lines 89-97): keep `V` when
`|V - Vset| <= dV`, otherwise saturate at `Vset + dV` or `Vset - dV`. -/
def clampDeadband (Vset dV V : ℚ) : ℚ :=
  if |V - Vset| ≤ dV then V
  else if dV < V - Vset then Vset + dV else Vset - dV

/-- Calculated power injections after the droop addition of line 100:
droop buses add `(1/PVdroop[i]) * (Vdc[i] - Vdcsetlh[i])`. -/
def pcalcDroop (S : DCSys n) (V : Fin n → ℚ) : Fin n → ℚ := fun i =>
  pcalcBase S V i +
    (if i ∈ S.droop then
      (1 / S.PVdroop i) * (V i - clampDeadband (S.Vdcset i) (S.dVdcset i) (V i))
    else 0)

/-- Jacobian before the droop update: `J[i,j] = pol * Ybusdc[i,j] * V[i] * V[j]`
(lines 68-75) with the diagonal replacement `J[i,i] += Pdccalc[i]`
(lines 77-84); the diagonal addition uses `Pdccalc` before the droop terms
are added to it. -/
def jacBase (S : DCSys n) (V : Fin n → ℚ) : Matrix (Fin n) (Fin n) ℚ :=
  Matrix.of fun i j =>
    S.pol * S.Ybus i j * V i * V j + (if i = j then pcalcBase S V i else 0)

/-- Jacobian after the droop diagonal update of lines 102-108:
`J[i,i] += (1/PVdroop[i]) * Vdc[i]` for droop buses. -/
def jacFull (S : DCSys n) (V : Fin n → ℚ) : Matrix (Fin n) (Fin n) ℚ :=
  Matrix.of fun i j =>
    jacBase S V i j + (if i = j ∧ i ∈ S.droop then (1 / S.PVdroop i) * V i else 0)

/-- Newton power mismatch `dPdcr = Pdc1 - Pdccalc` of line 116 (the code
forms it on the non-slack entries; here it is defined at every bus and only
the non-slack entries are consumed). -/
def mismatch (S : DCSys n) (V : Fin n → ℚ) : Fin n → ℚ := fun i =>
  S.Pdc1 i - pcalcDroop S V i

/-- Relative voltage corrections `dVr` returned by the external linear
solver `lsolve` (abstracting `np.linalg.solve(Jr, dPdcr)` /
`scipy spsolve` of lines 119-123) from the assembled Jacobian and
mismatch. -/
def dVrStep (S : DCSys n)
    (lsolve : Matrix (Fin n) (Fin n) ℚ → (Fin n → ℚ) → (Fin n → ℚ))
    (V : Fin n → ℚ) : Fin n → ℚ :=
  lsolve (jacFull S V) (mismatch S V)

/-- Voltage update `Vdc[noslack] *= (1 + dVr)` of line 126; entries outside
`noslack` are untouched. -/
def newtonUpdate (S : DCSys n)
    (lsolve : Matrix (Fin n) (Fin n) ℚ → (Fin n → ℚ) → (Fin n → ℚ))
    (V : Fin n → ℚ) : Fin n → ℚ := fun i =>
  if i ∈ S.noslack then V i * (1 + dVrStep S lsolve V i) else V i

/-- The Newton loop `while not converged and it <= itmax` (line 60); the
counter starts at 0 and is tested before each body execution, so the body
runs at most `itmax + 1` times.  Each pass updates the voltages and tests
`max |dVr| < tol` (line 129).  Returns the final voltage vector and the
convergence flag. -/
def dcIter (S : DCSys n)
    (lsolve : Matrix (Fin n) (Fin n) ℚ → (Fin n → ℚ) → (Fin n → ℚ)) :
    ℕ → (Fin n → ℚ) → (Fin n → ℚ) × Bool
  | 0, V => (V, false)
  | k + 1, V =>
    if ∀ i ∈ S.noslack, |dVrStep S lsolve V i| < S.tol then
      (newtonUpdate S lsolve V, true)
    else dcIter S lsolve k (newtonUpdate S lsolve V)

/-- Result record of `dcnetworkpf`: final voltages and powers, the
convergence flag, and `warned` mirroring the non-convergence message
printed at lines 133-134. -/
structure DCPFOut (n : ℕ) where
  Vdc : Fin n → ℚ
  Pdc : Fin n → ℚ
  converged : Bool
  warned : Bool

/-- The function `dcnetworkpf` (lines 10-147): run the Newton loop, then
back-compute `Pdc[slack]` and `Pdc[droop]` as
`-(pol * Vdc * (Ybusdc[idx,:] @ Vdc))` (lines 138-145); all other entries
of `Pdc` keep their input values.  The function is total: the source
contains no `raise`, and on non-convergence it prints a message and falls
through to the output update. -/
def dcnetworkpf (S : DCSys n)
    (lsolve : Matrix (Fin n) (Fin n) ℚ → (Fin n → ℚ) → (Fin n → ℚ))
    (Vdc0 : Fin n → ℚ) : DCPFOut n :=
  let r := dcIter S lsolve (S.itmax + 1) Vdc0
  { Vdc := r.1
    Pdc := fun i =>
      if i ∈ S.slack ∪ S.droop then -(S.pol * r.1 i * (S.Ybus.mulVec r.1) i)
      else S.Pdc i
    converged := r.2
    warned := !r.2 }

/-! ### Concrete example systems for dcnetworkpf -/

/-- Example voltage vector with the droop bus outside its deadband. -/
def Vex : Fin 2 → ℚ := ![1, 6 / 5]

/-- Two-bus system with bus 1 under droop control (deadband 0), used to
exhibit the droop modifications of the residual and Jacobian. -/
def S2ex : DCSys 2 where
  Ybus := !![1, -1; -1, 1]
  pol := 1
  slack := {0}
  noslack := {1}
  droop := {1}
  PVdroop := ![1, 1]
  Pdcset := ![0, 0]
  Vdcset := ![1, 1]
  dVdcset := ![0, 0]
  Pdc := ![0, 0]
  tol := 1 / 1000
  itmax := 10

/-- Two-bus system with no droop buses. -/
def S2nd : DCSys 2 where
  Ybus := !![1, -1; -1, 1]
  pol := 1
  slack := {0}
  noslack := {1}
  droop := ∅
  PVdroop := ![1, 1]
  Pdcset := ![0, 0]
  Vdcset := ![1, 1]
  dVdcset := ![0, 0]
  Pdc := ![0, 0]
  tol := 1 / 1000
  itmax := 10

/-- One-bus system that can never meet its tolerance when the solver keeps
returning a unit correction. -/
def S1w : DCSys 1 where
  Ybus := !![1]
  pol := 1
  slack := ∅
  noslack := {0}
  droop := ∅
  PVdroop := ![1]
  Pdcset := ![0]
  Vdcset := ![1]
  dVdcset := ![0]
  Pdc := ![0]
  tol := 1 / 2
  itmax := 0

/-- Stand-in linear solver that always returns the zero correction. -/
def lsolve0 : Matrix (Fin 2) (Fin 2) ℚ → (Fin 2 → ℚ) → (Fin 2 → ℚ) :=
  fun _ _ _ => 0

/-- Stand-in linear solver that always returns the unit correction. -/
def lsolve1 : Matrix (Fin 1) (Fin 1) ℚ → (Fin 1 → ℚ) → (Fin 1 → ℚ) :=
  fun _ _ _ => 1

/-! ### Claims C1 and C2: Newton residual and Jacobian formulas -/

/-- Deadband clamping agrees with clipping to
`[Vset - dV, Vset + dV]` whenever the deadband is nonnegative. -/
lemma clampDeadband_eq_clip (Vset dV V : ℚ) (h : 0 ≤ dV) :
    clampDeadband Vset dV V = max (Vset - dV) (min V (Vset + dV)) := by
  unfold clampDeadband
  rcases le_or_lt (|V - Vset|) dV with h1 | h1
  · rw [if_pos h1]
    rw [abs_le] at h1
    rw [min_eq_left (by linarith [h1.2]), max_eq_right (by linarith [h1.1])]
  · rw [if_neg (not_le.mpr h1)]
    rcases lt_or_le dV (V - Vset) with h2 | h2
    · rw [if_pos h2, min_eq_right (by linarith), max_eq_right (by linarith)]
    · rw [if_neg (not_lt.mpr h2)]
      have h3 : V - Vset < -dV := by
        rcases abs_cases (V - Vset) with ⟨he, _⟩ | ⟨he, _⟩ <;> linarith
      rw [min_eq_left (by linarith), max_eq_left (by linarith)]

/-- C1 counterexample: in `S2ex` the non-slack bus 1 is droop-controlled and
sits outside its deadband, so its Newton residual is not
`P_spec - pol*V*(Ybus V)`: the droop term shifts it. -/
theorem C1_counterexample :
    (1 : Fin 2) ∈ S2ex.noslack ∧
      mismatch S2ex Vex 1 ≠
        S2ex.Pdc1 1 - S2ex.pol * Vex 1 * (S2ex.Ybus.mulVec Vex) 1 := by
  refine ⟨by decide, ?_⟩
  norm_num [mismatch, pcalcDroop, pcalcBase, clampDeadband, DCSys.Pdc1, S2ex,
    Vex, Matrix.mulVec, Matrix.dotProduct, Fin.sum_univ_two]

/-- C1 (amended): for every non-slack bus `i` that is not droop-controlled,
the Newton residual equals `P_spec[i] - pol*V[i]*(Ybus V)[i]`, the Jacobian
off-diagonal entries are `pol*Ybus[i,j]*V[i]*V[j]`, and the diagonal entry
is that expression plus the calculated injection `P_calc[i]`; droop buses
receive the additional terms stated in C2. -/
theorem C1_theorem (S : DCSys n) (V : Fin n → ℚ) (i j : Fin n)
    (hi : i ∈ S.noslack) (hd : i ∉ S.droop) (hij : i ≠ j) :
    mismatch S V i = S.Pdc1 i - S.pol * V i * (S.Ybus.mulVec V) i ∧
    jacFull S V i j = S.pol * S.Ybus i j * V i * V j ∧
    jacFull S V i i = S.pol * S.Ybus i i * V i * V i + pcalcBase S V i := by
  refine ⟨?_, ?_, ?_⟩
  · simp [mismatch, pcalcDroop, hd, pcalcBase]
  · simp [jacFull, jacBase, hij, hd]
  · simp [jacFull, jacBase, hd]

/-- C1 witness: the amended statement evaluated on the droop-free two-bus
system `S2nd` at buses 1 and 0. -/
theorem C1_witness :
    mismatch S2nd Vex 1 =
        S2nd.Pdc1 1 - S2nd.pol * Vex 1 * (S2nd.Ybus.mulVec Vex) 1 ∧
    jacFull S2nd Vex 1 0 = S2nd.pol * S2nd.Ybus 1 0 * Vex 1 * Vex 0 ∧
    jacFull S2nd Vex 1 1 =
        S2nd.pol * S2nd.Ybus 1 1 * Vex 1 * Vex 1 + pcalcBase S2nd Vex 1 :=
  C1_theorem S2nd Vex 1 0 (by decide) (by decide) (by decide)

/-- C2 counterexample: in `S2ex` the droop bus 1 has
`(1/droop_gain)*(V - V_clamped) = 1/5`, but the Jacobian diagonal is
incremented by `(1/droop_gain)*V = 6/5`, so the claimed common increment is
wrong for the Jacobian. -/
theorem C2_counterexample :
    (1 : Fin 2) ∈ S2ex.droop ∧
      jacFull S2ex Vex 1 1 ≠
        jacBase S2ex Vex 1 1 +
          (1 / S2ex.PVdroop 1) *
            (Vex 1 - clampDeadband (S2ex.Vdcset 1) (S2ex.dVdcset 1) (Vex 1)) := by
  refine ⟨by decide, ?_⟩
  norm_num [jacFull, jacBase, pcalcBase, clampDeadband, S2ex, Vex,
    Matrix.mulVec, Matrix.dotProduct, Fin.sum_univ_two]

/-- C2 (amended): for every droop bus `i` with nonnegative deadband, the
calculated injection gains `(1/droop_gain)*(V - V_clamped)` while the
Jacobian diagonal gains `(1/droop_gain)*V[i]`, and the deadband clamp
equals clipping `V` to `[V_set - deadband, V_set + deadband]`. -/
theorem C2_theorem (S : DCSys n) (V : Fin n → ℚ) (i : Fin n)
    (hi : i ∈ S.droop) (hdV : 0 ≤ S.dVdcset i) :
    pcalcDroop S V i =
      pcalcBase S V i +
        (1 / S.PVdroop i) *
          (V i - clampDeadband (S.Vdcset i) (S.dVdcset i) (V i)) ∧
    jacFull S V i i = jacBase S V i i + (1 / S.PVdroop i) * V i ∧
    clampDeadband (S.Vdcset i) (S.dVdcset i) (V i) =
      max (S.Vdcset i - S.dVdcset i) (min (V i) (S.Vdcset i + S.dVdcset i)) := by
  exact ⟨by simp [pcalcDroop, hi], by simp [jacFull, hi],
    clampDeadband_eq_clip _ _ _ hdV⟩

/-- C2 witness: the amended statement evaluated on `S2ex` at the droop
bus 1. -/
theorem C2_witness :
    pcalcDroop S2ex Vex 1 =
      pcalcBase S2ex Vex 1 +
        (1 / S2ex.PVdroop 1) *
          (Vex 1 - clampDeadband (S2ex.Vdcset 1) (S2ex.dVdcset 1) (Vex 1)) ∧
    jacFull S2ex Vex 1 1 = jacBase S2ex Vex 1 1 + (1 / S2ex.PVdroop 1) * Vex 1 ∧
    clampDeadband (S2ex.Vdcset 1) (S2ex.dVdcset 1) (Vex 1) =
      max (S2ex.Vdcset 1 - S2ex.dVdcset 1)
        (min (Vex 1) (S2ex.Vdcset 1 + S2ex.dVdcset 1)) :=
  C2_theorem S2ex Vex 1 (by decide) (by decide)

/-! ### Claims C3 and C4: slack frame property and non-convergence path -/

/-- Voltages at buses outside the solved (non-slack) set are never touched
by the Newton loop. -/
lemma dcIter_fix (S : DCSys n)
    (lsolve : Matrix (Fin n) (Fin n) ℚ → (Fin n → ℚ) → (Fin n → ℚ))
    (k : ℕ) (V0 : Fin n → ℚ) (s : Fin n) (hs : s ∉ S.noslack) :
    (dcIter S lsolve k V0).1 s = V0 s := by
  induction k generalizing V0 with
  | zero => rfl
  | succ k ih =>
    have hstep : newtonUpdate S lsolve V0 s = V0 s := by
      simp [newtonUpdate, hs]
    by_cases h : ∀ i ∈ S.noslack, |dVrStep S lsolve V0 i| < S.tol
    · simp only [dcIter]
      rw [if_pos h]
      exact hstep
    · simp only [dcIter]
      rw [if_neg h, ih]
      exact hstep

/-- C3: slack-bus voltages pass through `dcnetworkpf` unchanged (slack buses
are excluded from the solved system), and the returned slack-bus power is
back-computed from the final voltages as `-(pol*V[s]*(Ybus[s,:] V))`. -/
theorem C3_theorem (S : DCSys n)
    (lsolve : Matrix (Fin n) (Fin n) ℚ → (Fin n → ℚ) → (Fin n → ℚ))
    (V0 : Fin n → ℚ) (s : Fin n) (hs : s ∈ S.slack) (hd : s ∉ S.noslack) :
    (dcnetworkpf S lsolve V0).Vdc s = V0 s ∧
    (dcnetworkpf S lsolve V0).Pdc s =
      -(S.pol * (dcnetworkpf S lsolve V0).Vdc s *
        (S.Ybus.mulVec (dcnetworkpf S lsolve V0).Vdc) s) := by
  constructor
  · exact dcIter_fix S lsolve (S.itmax + 1) V0 s hd
  · simp [dcnetworkpf, Finset.mem_union, hs]

/-- C3 witness: evaluated on the droop-free two-bus system with the zero
stand-in solver at the slack bus 0. -/
theorem C3_witness :
    (dcnetworkpf S2nd lsolve0 Vex).Vdc 0 = Vex 0 ∧
    (dcnetworkpf S2nd lsolve0 Vex).Pdc 0 =
      -(S2nd.pol * (dcnetworkpf S2nd lsolve0 Vex).Vdc 0 *
        (S2nd.Ybus.mulVec (dcnetworkpf S2nd lsolve0 Vex).Vdc) 0) :=
  C3_theorem S2nd lsolve0 Vex 0 (by decide) (by decide)

/-- C4: when the Newton loop fails to converge within its iteration budget,
`dcnetworkpf` emits the convergence warning and still returns normally: the
voltage output is the last iterate and the power output is back-computed
from it, exactly as in the converged case (the source has no raising
path). -/
theorem C4_theorem (S : DCSys n)
    (lsolve : Matrix (Fin n) (Fin n) ℚ → (Fin n → ℚ) → (Fin n → ℚ))
    (V0 : Fin n → ℚ) (h : (dcnetworkpf S lsolve V0).converged = false) :
    (dcnetworkpf S lsolve V0).warned = true ∧
    (dcnetworkpf S lsolve V0).Vdc = (dcIter S lsolve (S.itmax + 1) V0).1 ∧
    (dcnetworkpf S lsolve V0).Pdc = fun i =>
      if i ∈ S.slack ∪ S.droop then
        -(S.pol * (dcIter S lsolve (S.itmax + 1) V0).1 i *
          (S.Ybus.mulVec (dcIter S lsolve (S.itmax + 1) V0).1) i)
      else S.Pdc i := by
  refine ⟨?_, rfl, rfl⟩
  have hw : (dcnetworkpf S lsolve V0).warned =
      !(dcnetworkpf S lsolve V0).converged := rfl
  rw [hw, h]
  rfl

/-- C4 witness: the one-bus system with the unit stand-in solver never
meets its tolerance, the warning fires and the last iterate is returned. -/
theorem C4_witness :
    (dcnetworkpf S1w lsolve1 ![1]).converged = false ∧
    ((dcnetworkpf S1w lsolve1 ![1]).warned = true ∧
      (dcnetworkpf S1w lsolve1 ![1]).Vdc =
        (dcIter S1w lsolve1 (S1w.itmax + 1) ![1]).1 ∧
      (dcnetworkpf S1w lsolve1 ![1]).Pdc = fun i =>
        if i ∈ S1w.slack ∪ S1w.droop then
          -(S1w.pol * (dcIter S1w lsolve1 (S1w.itmax + 1) ![1]).1 i *
            (S1w.Ybus.mulVec (dcIter S1w lsolve1 (S1w.itmax + 1) ![1]).1) i)
        else S1w.Pdc i) := by
  have h : (dcnetworkpf S1w lsolve1 ![1]).converged = false := by
    norm_num [dcnetworkpf, dcIter, dVrStep, newtonUpdate, lsolve1, S1w]
  exact ⟨h, C4_theorem S1w lsolve1 ![1] h⟩

/-! ## Per-unit conversion (src/PyACDC/ext2intpu.py, int2extpu.py)

Rows of the DC bus, converter and branch matrices are column-indexed
rational vectors, mirroring the numpy row access through the named column
constants of idx_busdc.py and idx_brchdc.py.  The file idx_convdc.py is
not present under src/; its column constants are reconstructed from its
callers (the unpacking order in ext2intpu.py/convout.py together with the
caller comments and prints fixing RTF = 6, ICMAX = 14, CONVSTATUS = 15),
with the first five unpacked names being control-type codes, not column
indices. -/

/-- DC bus matrix row (9 columns, idx_busdc.py). -/
abbrev BusRow : Type := Fin 9 → ℚ

/-- Converter matrix row (34 columns, reconstructed idx_convdc). -/
abbrev ConvRow : Type := Fin 34 → ℚ

/-- DC branch matrix row (11 columns, idx_brchdc.py). -/
abbrev BrchRow : Type := Fin 11 → ℚ

/-- Column BUSDC_I of the DC bus matrix. -/
def BUSDC_I : Fin 9 := 0
/-- Column BUSAC_I of the DC bus matrix. -/
def BUSAC_I : Fin 9 := 1
/-- Column BASE_KVDC of the DC bus matrix. -/
def BASE_KVDC : Fin 9 := 5
/-- Column CDC of the DC bus matrix. -/
def CDC : Fin 9 := 8

/-- Column CONV_BUS of the converter matrix. -/
def CONV_BUS : Fin 34 := 0
/-- Column PCONV of the converter matrix. -/
def PCONV : Fin 34 := 3
/-- Column QCONV of the converter matrix. -/
def QCONV : Fin 34 := 4
/-- Column RTF of the converter matrix. -/
def RTF : Fin 34 := 6
/-- Column XTF of the converter matrix. -/
def XTF : Fin 34 := 7
/-- Column BF of the converter matrix. -/
def BF : Fin 34 := 8
/-- Column RCONV of the converter matrix. -/
def RCONV : Fin 34 := 9
/-- Column XCONV of the converter matrix. -/
def XCONV : Fin 34 := 10
/-- Column ICMAX of the converter matrix. -/
def ICMAX : Fin 34 := 14
/-- Column CONVSTATUS of the converter matrix. -/
def CONVSTATUS : Fin 34 := 15

/-- Column F_BUSDC of the DC branch matrix. -/
def F_BUSDC : Fin 11 := 0
/-- Column T_BUSDC of the DC branch matrix. -/
def T_BUSDC : Fin 11 := 1
/-- Column BRDC_R of the DC branch matrix. -/
def BRDC_R : Fin 11 := 2
/-- Column BRDC_L of the DC branch matrix. -/
def BRDC_L : Fin 11 := 3
/-- Column BRDC_C of the DC branch matrix. -/
def BRDC_C : Fin 11 := 4
/-- Column BRDC_STATUS of the DC branch matrix. -/
def BRDC_STATUS : Fin 11 := 8

/-- All-zero bus row used as the out-of-range lookup default. -/
def busDefault : BusRow := fun _ => 0

/-- Translation of `astype(int) - 1` applied to a stored bus number: numpy
row indexing of `busdc` by the 0-based from-bus position. -/
def busIdx (q : ℚ) : ℕ := (⌊q⌋).toNat - 1

/-- Base kV of the branch's from bus:
`busdc[branchdc[:, F_BUSDC].astype(int) - 1, BASE_KVDC]`. -/
def fromKV (busdc : List BusRow) (r : BrchRow) : ℚ :=
  (busdc.getD (busIdx (r F_BUSDC)) busDefault) BASE_KVDC

/-- Base kV of the branch's to bus. -/
def toKV (busdc : List BusRow) (r : BrchRow) : ℚ :=
  (busdc.getD (busIdx (r T_BUSDC)) busDefault) BASE_KVDC

/-- Converter AC side forward conversion (ext2intpu.py lines 54-59):
impedances and susceptance scale by `baseMVA/baseMVAac`, the current
rating by `baseMVAac/baseMVA`; all other columns are unaltered. -/
def ext2intpuConv (baseMVA baseMVAac : ℚ) (r : ConvRow) : ConvRow := fun c =>
  if c = RTF ∨ c = XTF ∨ c = BF ∨ c = RCONV ∨ c = XCONV then
    r c * baseMVA / baseMVAac
  else if c = ICMAX then r c * baseMVAac / baseMVA
  else r c

/-- DC bus forward conversion (ext2intpu.py lines 66-68): the capacitance
column is rescaled through `baseR = kV^2 / MVA`; all other columns are
unaltered. -/
def ext2intpuBus (baseMVA baseMVAdc : ℚ) (r : BusRow) : BusRow := fun c =>
  if c = CDC then
    r c / (r BASE_KVDC ^ 2 / baseMVAdc) * (r BASE_KVDC ^ 2 / baseMVA)
  else r c

/-- DC branch forward conversion (ext2intpu.py lines 78-84), `kV` being the
base kV of the branch's from bus. -/
def ext2intpuBrch (baseMVA baseMVAdc kV : ℚ) (r : BrchRow) : BrchRow := fun c =>
  if c = BRDC_R ∨ c = BRDC_L then
    r c * (kV ^ 2 / baseMVAdc) / (kV ^ 2 / baseMVA)
  else if c = BRDC_C then
    r c / (kV ^ 2 / baseMVAdc) * (kV ^ 2 / baseMVA)
  else r c

/-- The function `ext2intpu` (lines 14-86): check that both ends of every
DC branch share the same base voltage (lines 72-76, `ValueError`
otherwise), then convert the three matrices. -/
def ext2intpu (baseMVA baseMVAac baseMVAdc : ℚ) (busdc : List BusRow)
    (convdc : List ConvRow) (branchdc : List BrchRow) :
    Except String (List BusRow × List ConvRow × List BrchRow) :=
  if ∀ r ∈ branchdc, fromKV busdc r = toKV busdc r then
    .ok (busdc.map (ext2intpuBus baseMVA baseMVAdc),
      convdc.map (ext2intpuConv baseMVA baseMVAac),
      branchdc.map fun r => ext2intpuBrch baseMVA baseMVAdc (fromKV busdc r) r)
  else .error "The DC voltages at both sides of a DC branch do not match."

/-- Converter AC side inverse conversion (int2extpu.py lines 52-57). -/
def int2extpuConv (baseMVA baseMVAac : ℚ) (r : ConvRow) : ConvRow := fun c =>
  if c = RTF ∨ c = XTF ∨ c = BF ∨ c = RCONV ∨ c = XCONV then
    r c * baseMVAac / baseMVA
  else if c = ICMAX then r c * baseMVA / baseMVAac
  else r c

/-- DC bus inverse conversion (int2extpu.py lines 64-66). -/
def int2extpuBus (baseMVA baseMVAdc : ℚ) (r : BusRow) : BusRow := fun c =>
  if c = CDC then
    r c / (r BASE_KVDC ^ 2 / baseMVA) * (r BASE_KVDC ^ 2 / baseMVAdc)
  else r c

/-- DC branch inverse conversion (int2extpu.py lines 69-75). -/
def int2extpuBrch (baseMVA baseMVAdc kV : ℚ) (r : BrchRow) : BrchRow := fun c =>
  if c = BRDC_R ∨ c = BRDC_L then
    r c * (kV ^ 2 / baseMVA) / (kV ^ 2 / baseMVAdc)
  else if c = BRDC_C then
    r c / (kV ^ 2 / baseMVA) * (kV ^ 2 / baseMVAdc)
  else r c

/-- The function `int2extpu` (lines 12-77): inverse conversion of the three
matrices (no base voltage check on this direction). -/
def int2extpu (baseMVA baseMVAac baseMVAdc : ℚ) (busdc : List BusRow)
    (convdc : List ConvRow) (branchdc : List BrchRow) :
    List BusRow × List ConvRow × List BrchRow :=
  (busdc.map (int2extpuBus baseMVA baseMVAdc),
   convdc.map (int2extpuConv baseMVA baseMVAac),
   branchdc.map fun r => int2extpuBrch baseMVA baseMVAdc (fromKV busdc r) r)

/-! ### Claim C5: per-unit round trip -/

/-- The bus conversion leaves the base voltage column unaltered. -/
lemma ext2intpuBus_kV (A dc : ℚ) (r : BusRow) :
    ext2intpuBus A dc r BASE_KVDC = r BASE_KVDC := if_neg (by decide)

/-- The bus conversion fixes the all-zero default row. -/
lemma ext2intpuBus_default (A dc : ℚ) :
    ext2intpuBus A dc busDefault = busDefault := by
  funext c
  by_cases h : c = CDC
  · simp [ext2intpuBus, h, busDefault]
  · simp [ext2intpuBus, h]

/-- Lookup with a default fixed by `f` commutes with `map f`. -/
lemma getD_map_of_fix {α : Type} (f : α → α) (d : α) (hd : f d = d)
    (l : List α) (i : ℕ) : (l.map f).getD i d = f (l.getD i d) := by
  induction l generalizing i with
  | nil => simp [hd]
  | cons a l ih =>
    cases i with
    | zero => rfl
    | succ i => simpa using ih i

/-- Converter row round trip. -/
lemma conv_roundtrip (A ac : ℚ) (hA : A ≠ 0) (hac : ac ≠ 0) (r : ConvRow) :
    int2extpuConv A ac (ext2intpuConv A ac r) = r := by
  funext c
  simp only [int2extpuConv, ext2intpuConv]
  by_cases h1 : c = RTF ∨ c = XTF ∨ c = BF ∨ c = RCONV ∨ c = XCONV
  · rw [if_pos h1, if_pos h1]
    field_simp
  · rw [if_neg h1, if_neg h1]
    by_cases h2 : c = ICMAX
    · rw [if_pos h2, if_pos h2]
      field_simp
    · rw [if_neg h2, if_neg h2]

/-- Bus row round trip, for a nonzero base voltage. -/
lemma bus_roundtrip (A dc : ℚ) (hA : A ≠ 0) (hdc : dc ≠ 0) (r : BusRow)
    (hk : r BASE_KVDC ≠ 0) :
    int2extpuBus A dc (ext2intpuBus A dc r) = r := by
  funext c
  simp only [int2extpuBus, ext2intpuBus_kV]
  by_cases h : c = CDC
  · rw [if_pos h, h]
    have h2 : ext2intpuBus A dc r CDC =
        r CDC / (r BASE_KVDC ^ 2 / dc) * (r BASE_KVDC ^ 2 / A) := if_pos rfl
    rw [h2]
    field_simp
  · rw [if_neg h]
    exact if_neg h

/-- Branch row round trip, for a nonzero base voltage. -/
lemma brch_roundtrip (A dc kV : ℚ) (hA : A ≠ 0) (hdc : dc ≠ 0)
    (hk : kV ≠ 0) (r : BrchRow) :
    int2extpuBrch A dc kV (ext2intpuBrch A dc kV r) = r := by
  funext c
  simp only [int2extpuBrch, ext2intpuBrch]
  by_cases h1 : c = BRDC_R ∨ c = BRDC_L
  · rw [if_pos h1, if_pos h1]
    field_simp
    ring
  · rw [if_neg h1, if_neg h1]
    by_cases h2 : c = BRDC_C
    · rw [if_pos h2, if_pos h2]
      field_simp
    · rw [if_neg h2, if_neg h2]

/-- Mapping a function that fixes every member of a list is the
identity. -/
lemma map_id_of_mem {α : Type} (l : List α) (f : α → α)
    (h : ∀ a ∈ l, f a = a) : l.map f = l := by
  induction l with
  | nil => rfl
  | cons a t ih =>
    simp only [List.map_cons, h a (by simp)]
    rw [ih fun b hb => h b (by simp [hb])]

/-- The branch conversion does not move the from-bus pointer, and the bus
conversion does not move base voltages, so the from-bus base kV recomputed
on the converted matrices agrees with the original one. -/
lemma fromKV_map (A dc kV : ℚ) (busdc : List BusRow) (r : BrchRow) :
    fromKV (busdc.map (ext2intpuBus A dc)) (ext2intpuBrch A dc kV r) =
      fromKV busdc r := by
  have h1 : ext2intpuBrch A dc kV r F_BUSDC = r F_BUSDC := by
    simp only [ext2intpuBrch]
    rw [if_neg (by decide), if_neg (by decide)]
  unfold fromKV
  rw [h1, getD_map_of_fix _ _ (ext2intpuBus_default A dc), ext2intpuBus_kV]

/-- C5: with nonzero base powers and nonzero bus base voltages, a
successful `ext2intpu` followed by `int2extpu` reproduces the three input
matrices exactly (hence within any tolerance), and each direction rescales
only the impedance/susceptance, current-rating and capacitance columns:
all other columns — per-unit voltages and real-unit powers included — pass
through unaltered. -/
theorem C5_theorem (A ac dc : ℚ) (busdc : List BusRow)
    (convdc : List ConvRow) (branchdc : List BrchRow)
    (bint : List BusRow) (cint : List ConvRow) (brint : List BrchRow)
    (hA : A ≠ 0) (hac : ac ≠ 0) (hdc : dc ≠ 0)
    (hkV : ∀ r ∈ busdc, r BASE_KVDC ≠ 0)
    (hbr : ∀ r ∈ branchdc, fromKV busdc r ≠ 0)
    (hok : ext2intpu A ac dc busdc convdc branchdc =
      Except.ok (bint, cint, brint)) :
    int2extpu A ac dc bint cint brint = (busdc, convdc, branchdc) ∧
    (∀ (r : ConvRow) (c : Fin 34),
      ¬(c = RTF ∨ c = XTF ∨ c = BF ∨ c = RCONV ∨ c = XCONV) → ¬c = ICMAX →
      ext2intpuConv A ac r c = r c ∧ int2extpuConv A ac r c = r c) ∧
    (∀ (r : BusRow) (c : Fin 9), ¬c = CDC →
      ext2intpuBus A dc r c = r c ∧ int2extpuBus A dc r c = r c) ∧
    (∀ (r : BrchRow) (kV : ℚ) (c : Fin 11),
      ¬(c = BRDC_R ∨ c = BRDC_L) → ¬c = BRDC_C →
      ext2intpuBrch A dc kV r c = r c ∧ int2extpuBrch A dc kV r c = r c) := by
  refine ⟨?_, ?_, ?_, ?_⟩
  · unfold ext2intpu at hok
    split at hok
    · rw [Except.ok.injEq, Prod.mk.injEq, Prod.mk.injEq] at hok
      obtain ⟨h1, h2, h3⟩ := hok
      subst h1
      subst h2
      subst h3
      have e1 : (busdc.map (ext2intpuBus A dc)).map (int2extpuBus A dc) =
          busdc := by
        rw [List.map_map]
        exact map_id_of_mem _ _ fun r hr =>
          bus_roundtrip A dc hA hdc r (hkV r hr)
      have e2 : (convdc.map (ext2intpuConv A ac)).map (int2extpuConv A ac) =
          convdc := by
        rw [List.map_map]
        exact map_id_of_mem _ _ fun r _ => conv_roundtrip A ac hA hac r
      have e3 : ((branchdc.map fun r =>
          ext2intpuBrch A dc (fromKV busdc r) r).map fun r =>
            int2extpuBrch A dc
              (fromKV (busdc.map (ext2intpuBus A dc)) r) r) = branchdc := by
        rw [List.map_map]
        refine map_id_of_mem _ _ fun r hr => ?_
        show int2extpuBrch A dc
          (fromKV (busdc.map (ext2intpuBus A dc))
            (ext2intpuBrch A dc (fromKV busdc r) r))
          (ext2intpuBrch A dc (fromKV busdc r) r) = r
        rw [fromKV_map]
        exact brch_roundtrip A dc (fromKV busdc r) hA hdc (hbr r hr) r
      unfold int2extpu
      rw [e1, e2, e3]
    · exact absurd hok (by simp)
  · intro r c h1 h2
    constructor
    · simp only [ext2intpuConv]
      rw [if_neg h1, if_neg h2]
    · simp only [int2extpuConv]
      rw [if_neg h1, if_neg h2]
  · intro r c h
    constructor
    · simp only [ext2intpuBus]
      rw [if_neg h]
    · simp only [int2extpuBus]
      rw [if_neg h]
  · intro r kV c h1 h2
    constructor
    · simp only [ext2intpuBrch]
      rw [if_neg h1, if_neg h2]
    · simp only [int2extpuBrch]
      rw [if_neg h1, if_neg h2]

/-- Witness DC bus matrix: one bus, number 1, base 2 kV, capacitance 3. -/
def wBus : List BusRow :=
  [fun c => if c = BUSDC_I then 1 else if c = BASE_KVDC then 2
    else if c = CDC then 3 else 0]

/-- Witness converter matrix: one all-one row. -/
def wConv : List ConvRow := [fun _ => 1]

/-- Witness branch matrix: one branch from bus 1 to bus 1 with
resistance 4. -/
def wBrch : List BrchRow :=
  [fun c => if c = BRDC_R then 4 else if c = F_BUSDC ∨ c = T_BUSDC then 1
    else 0]

/-- C5 witness: the round trip of `C5_theorem` evaluated on the concrete
one-row matrices with bases 1, 2 and 4. -/
theorem C5_witness :
    int2extpu 1 2 4 (wBus.map (ext2intpuBus 1 4))
      (wConv.map (ext2intpuConv 1 2))
      (wBrch.map fun r => ext2intpuBrch 1 4 (fromKV wBus r) r) =
      (wBus, wConv, wBrch) := by
  have hfrom : ∀ r ∈ wBrch, fromKV wBus r = 2 := by
    intro r hr
    simp only [wBrch, List.mem_singleton] at hr
    subst hr
    decide
  have hto : ∀ r ∈ wBrch, toKV wBus r = 2 := by
    intro r hr
    simp only [wBrch, List.mem_singleton] at hr
    subst hr
    decide
  have hkV : ∀ r ∈ wBus, r BASE_KVDC ≠ 0 := by
    intro r hr
    simp only [wBus, List.mem_singleton] at hr
    subst hr
    decide
  have hbr : ∀ r ∈ wBrch, fromKV wBus r ≠ 0 := by
    intro r hr
    rw [hfrom r hr]
    decide
  have hchk : ∀ r ∈ wBrch, fromKV wBus r = toKV wBus r := by
    intro r hr
    rw [hfrom r hr, hto r hr]
  have hok : ext2intpu 1 2 4 wBus wConv wBrch =
      Except.ok (wBus.map (ext2intpuBus 1 4), wConv.map (ext2intpuConv 1 2),
        wBrch.map fun r => ext2intpuBrch 1 4 (fromKV wBus r) r) := by
    unfold ext2intpu
    rw [if_pos hchk]
  exact (C5_theorem 1 2 4 wBus wConv wBrch _ _ _ (by norm_num) (by norm_num)
    (by norm_num) hkV hbr hok).1

/-! ## DC admittance builder (src/PyACDC/makeYbusdc.py)

A branch is represented by its 0-based endpoint indices (the source's
`f = branchdc[:, F_BUSDC].astype(int) - 1` and
`t = branchdc[:, T_BUSDC].astype(int) - 1`) together with its resistance
`branchdc[:, BRDC_R]`; the matrices are indexed by branch position and bus
index exactly as the scipy CSR matrices are, with coincident entries
summed (CSR duplicate-summing semantics). -/

/-- From endpoint of branch `b`. -/
def brF (bs : List (Fin n × Fin n × ℚ)) (b : Fin bs.length) : Fin n :=
  (bs.get b).1

/-- To endpoint of branch `b`. -/
def brT (bs : List (Fin n × Fin n × ℚ)) (b : Fin bs.length) : Fin n :=
  (bs.get b).2.1

/-- Resistance of branch `b`. -/
def brR (bs : List (Fin n × Fin n × ℚ)) (b : Fin bs.length) : ℚ :=
  (bs.get b).2.2

/-- Connection matrix `Cf` for lines and from buses (line 59). -/
def Cfdc (bs : List (Fin n × Fin n × ℚ)) :
    Matrix (Fin bs.length) (Fin n) ℚ :=
  Matrix.of fun b j => if j = brF bs b then 1 else 0

/-- Connection matrix `Ct` for lines and to buses (line 61). -/
def Ctdc (bs : List (Fin n × Fin n × ℚ)) :
    Matrix (Fin bs.length) (Fin n) ℚ :=
  Matrix.of fun b j => if j = brT bs b then 1 else 0

/-- Branch from-side admittance matrix `Yfdc` (lines 67-70): entry
`Yff = 1/r` at the from bus and `Yft = -1/r` at the to bus, the two
summed when the endpoints coincide. -/
def Yfdc (bs : List (Fin n × Fin n × ℚ)) :
    Matrix (Fin bs.length) (Fin n) ℚ :=
  Matrix.of fun b j =>
    (if j = brF bs b then 1 / brR bs b else 0) +
      (if j = brT bs b then -(1 / brR bs b) else 0)

/-- Branch to-side admittance matrix `Ytdc` (lines 72-75). -/
def Ytdc (bs : List (Fin n × Fin n × ℚ)) :
    Matrix (Fin bs.length) (Fin n) ℚ :=
  Matrix.of fun b j =>
    (if j = brF bs b then -(1 / brR bs b) else 0) +
      (if j = brT bs b then 1 / brR bs b else 0)

/-- The bus admittance matrix `Ybusdc = Cf.T @ Yfdc + Ct.T @ Ytdc`
(line 78). -/
def makeYbusdc (bs : List (Fin n × Fin n × ℚ)) :
    Matrix (Fin n) (Fin n) ℚ :=
  (Cfdc bs)ᵀ * Yfdc bs + (Ctdc bs)ᵀ * Ytdc bs

/-! ### Claim C6: symmetry and zero row sums of Ybusdc -/

/-- The to-side branch admittances are the negated from-side ones. -/
lemma Ytdc_eq_neg (bs : List (Fin n × Fin n × ℚ)) :
    Ytdc bs = -Yfdc bs := by
  ext b j
  simp only [Ytdc, Yfdc, Matrix.of_apply, Matrix.neg_apply]
  split_ifs <;> ring

/-- The from-side branch admittances factor through the incidence
difference scaled by the branch admittances. -/
lemma Yfdc_eq (bs : List (Fin n × Fin n × ℚ)) :
    Yfdc bs =
      Matrix.diagonal (fun b => 1 / brR bs b) * (Cfdc bs - Ctdc bs) := by
  ext b j
  simp only [Yfdc, Cfdc, Ctdc, Matrix.of_apply, Matrix.diagonal_mul,
    Matrix.sub_apply]
  simp only [mul_sub, mul_ite, mul_one, mul_zero]
  split_ifs <;> ring

/-- `Ybusdc` in factored form `(Cf - Ct)^T D (Cf - Ct)`. -/
lemma makeYbusdc_eq (bs : List (Fin n × Fin n × ℚ)) :
    makeYbusdc bs =
      (Cfdc bs - Ctdc bs)ᵀ *
        (Matrix.diagonal (fun b => 1 / brR bs b) * (Cfdc bs - Ctdc bs)) := by
  unfold makeYbusdc
  rw [Ytdc_eq_neg, Yfdc_eq, Matrix.mul_neg, ← sub_eq_add_neg,
    Matrix.transpose_sub, Matrix.sub_mul]

/-- The incidence difference annihilates the all-ones vector: each branch
row holds a single `+1` and a single `-1` (or their cancelling overlay). -/
lemma incidence_mulVec_one (bs : List (Fin n × Fin n × ℚ)) :
    (Cfdc bs - Ctdc bs) *ᵥ (fun _ => (1 : ℚ)) = 0 := by
  funext b
  simp only [Matrix.mulVec, Matrix.dotProduct, Matrix.sub_apply, Cfdc,
    Ctdc, Matrix.of_apply, mul_one, Finset.sum_sub_distrib, Pi.zero_apply]
  rw [Finset.sum_ite_eq' Finset.univ, Finset.sum_ite_eq' Finset.univ]
  simp

/-- C6: for every branch list with nonzero resistances, `Ybusdc` is
symmetric and each of its rows sums to zero (exactly, over exact
rationals). -/
theorem C6_theorem (bs : List (Fin n × Fin n × ℚ)) (i j : Fin n)
    (hR : ∀ p ∈ bs, p.2.2 ≠ 0) :
    makeYbusdc bs i j = makeYbusdc bs j i ∧
    ∑ k, makeYbusdc bs i k = 0 := by
  constructor
  · have hsym : (makeYbusdc bs)ᵀ = makeYbusdc bs := by
      rw [makeYbusdc_eq, Matrix.transpose_mul, Matrix.transpose_mul,
        Matrix.transpose_transpose, Matrix.diagonal_transpose,
        Matrix.mul_assoc]
    calc makeYbusdc bs i j = (makeYbusdc bs)ᵀ j i := rfl
    _ = makeYbusdc bs j i := by rw [hsym]
  · have hz : makeYbusdc bs *ᵥ (fun _ => (1 : ℚ)) = 0 := by
      rw [makeYbusdc_eq, ← Matrix.mulVec_mulVec, ← Matrix.mulVec_mulVec,
        incidence_mulVec_one, Matrix.mulVec_zero, Matrix.mulVec_zero]
    have h1 : ∑ k, makeYbusdc bs i k =
        (makeYbusdc bs *ᵥ (fun _ => (1 : ℚ))) i := by
      simp [Matrix.mulVec, Matrix.dotProduct]
    rw [h1, hz]
    rfl

/-- Witness branch list: a single branch between buses 0 and 1 with
resistance 2. -/
def wbs : List (Fin 2 × Fin 2 × ℚ) := [(0, 1, 2)]

/-- C6 witness: symmetry and the zero row sum evaluated on the
single-branch two-bus network. -/
theorem C6_witness :
    makeYbusdc wbs 0 1 = makeYbusdc wbs 1 0 ∧
    ∑ k, makeYbusdc wbs 0 k = 0 :=
  C6_theorem wbs 0 1 (by decide)

/-! ## Outage filtering (src/PyACDC/convout.py, brchdcout.py, and the
generator filter of runacdcpf.py lines 128-131)

The converter and DC branch splitters validate the status column against
{0,1}, then partition the rows by `np.where(status == 1)` /
`np.where(status == 0)` in ascending row order, returning the selected
rows together with their original indices.  `convout` additionally zeroes
the PCONV and QCONV columns of the outage rows (convout.py lines 56-58);
its busdc side effect (clearing the AC back-reference of outage
converters) does not touch the converter matrix partition and is not
needed here.  Generator outage filtering is inlined in runacdcpf.py
(lines 128-131): `gon = np.where(gen[:, GEN_STATUS] > 0)[0]`,
`goff = np.where(gen[:, GEN_STATUS] == 0)[0]`, with the two row subsets
copied unmodified and recombined at their original indices at lines
618-620. -/

/-- All-zero branch row, the out-of-range lookup default. -/
def brchDefault : BrchRow := fun _ => 0

/-- All-zero converter row, the out-of-range lookup default. -/
def convDefault : ConvRow := fun _ => 0

/-- Ascending indices at which a row predicate holds (`np.where`). -/
def idxWhere {α : Type} (d : α) (rows : List α) (p : α → Prop)
    [DecidablePred p] : List ℕ :=
  (List.range rows.length).filter fun i => decide (p (rows.getD i d))

/-- Fancy-indexing row selection `rows[indices, :]`. -/
def selRows {α : Type} (d : α) (rows : List α) (idx : List ℕ) : List α :=
  idx.map fun i => rows.getD i d

/-- Reset of converter powers on outage rows (convout.py lines 57-58). -/
def resetPQ (r : ConvRow) : ConvRow := fun c =>
  if c = PCONV ∨ c = QCONV then 0 else r c

/-- The function `brchdcout` (lines 11-44): status check then partition. -/
def brchdcout (rows : List BrchRow) :
    Except String (List BrchRow × List ℕ × List BrchRow × List ℕ) :=
  if ∀ r ∈ rows, r BRDC_STATUS = 0 ∨ r BRDC_STATUS = 1 then
    .ok (selRows brchDefault rows
          (idxWhere brchDefault rows fun r => r BRDC_STATUS = 1),
        idxWhere brchDefault rows fun r => r BRDC_STATUS = 1,
        selRows brchDefault rows
          (idxWhere brchDefault rows fun r => r BRDC_STATUS = 0),
        idxWhere brchDefault rows fun r => r BRDC_STATUS = 0)
  else .error "Branch status flags must be either 0 or 1"

/-- The converter-matrix part of `convout` (lines 11-81): status check,
partition, and power reset on the outage subset. -/
def convout (rows : List ConvRow) :
    Except String (List ConvRow × List ℕ × List ConvRow × List ℕ) :=
  if ∀ r ∈ rows, r CONVSTATUS = 0 ∨ r CONVSTATUS = 1 then
    .ok (selRows convDefault rows
          (idxWhere convDefault rows fun r => r CONVSTATUS = 1),
        idxWhere convDefault rows fun r => r CONVSTATUS = 1,
        (selRows convDefault rows
          (idxWhere convDefault rows fun r => r CONVSTATUS = 0)).map resetPQ,
        idxWhere convDefault rows fun r => r CONVSTATUS = 0)
  else .error "Converter status flags must be either 0 or 1"

/-- Generator matrix row (21 columns, pypower idx_gen). -/
abbrev GenRow : Type := Fin 21 → ℚ

/-- Column GEN_STATUS of the generator matrix (pypower idx_gen). -/
def GEN_STATUS : Fin 21 := 7

/-- All-zero generator row, the out-of-range lookup default. -/
def genDefault : GenRow := fun _ => 0

/-- The generator outage filter of runacdcpf.py lines 128-131: operating
rows are `np.where(gen[:, GEN_STATUS] > 0)[0]`, outage rows are
`np.where(gen[:, GEN_STATUS] == 0)[0]`; both subsets are plain copies
(no status validation and no field reset in the source). -/
def genout (rows : List GenRow) :
    List GenRow × List ℕ × List GenRow × List ℕ :=
  (selRows genDefault rows
      (idxWhere genDefault rows fun r => 0 < r GEN_STATUS),
   idxWhere genDefault rows fun r => 0 < r GEN_STATUS,
   selRows genDefault rows
      (idxWhere genDefault rows fun r => r GEN_STATUS = 0),
   idxWhere genDefault rows fun r => r GEN_STATUS = 0)

/-- The claim's recombination: place each retained subset row back at its
retained original row index. -/
def placeBack {α : Type} (d : α) (nrows : ℕ) (opIdx : List ℕ) (op : List α)
    (outIdx : List ℕ) (out : List α) : List α :=
  (List.range nrows).map fun i =>
    if i ∈ opIdx then op.getD (opIdx.indexOf i) d
    else out.getD (outIdx.indexOf i) d

/-! ### Claim C7: partition recombination -/

/-- Looking a member up by its first index in a mapped list recovers its
image. -/
lemma getD_map_indexOf {α : Type} (f : ℕ → α) (l : List ℕ) (i : ℕ)
    (hi : i ∈ l) (d : α) :
    (l.map f).getD (l.indexOf i) d = f i := by
  have h1 : l.indexOf i < l.length := List.indexOf_lt_length.mpr hi
  rw [List.getD_eq_getElem _ d (by simpa using h1), List.getElem_map]
  congr 1
  exact List.getElem_indexOf h1

/-- Membership in `idxWhere`. -/
lemma mem_idxWhere {α : Type} {d : α} {rows : List α} {p : α → Prop}
    [DecidablePred p] {i : ℕ} :
    i ∈ idxWhere d rows p ↔ i < rows.length ∧ p (rows.getD i d) := by
  simp [idxWhere, List.mem_filter, List.mem_range]

/-- Generic recombination lemma: partitioning by complementary predicates
`p` (operating) and `q` (outage) and transforming the outage rows by `g`
recombines to the row-wise conditional image of the original matrix. -/
lemma placeBack_split {α : Type} (d : α) (rows : List α) (p q : α → Prop)
    [DecidablePred p] [DecidablePred q] (g : α → α)
    (hpq : ∀ r ∈ rows, p r ↔ ¬q r) :
    placeBack d rows.length (idxWhere d rows p)
        (selRows d rows (idxWhere d rows p)) (idxWhere d rows q)
        ((selRows d rows (idxWhere d rows q)).map g) =
      rows.map (fun r => if q r then g r else r) ∧
    (idxWhere d rows p).length + (idxWhere d rows q).length =
      rows.length := by
  constructor
  · refine List.ext_getElem (by simp [placeBack]) fun i h1 h2 => ?_
    have hi : i < rows.length := by simpa [placeBack] using h1
    have hgd : rows.getD i d = rows[i] := List.getD_eq_getElem _ _ hi
    simp only [placeBack, List.getElem_map, List.getElem_range]
    by_cases hp : p (rows.getD i d)
    · have hmem : i ∈ idxWhere d rows p := mem_idxWhere.mpr ⟨hi, hp⟩
      rw [if_pos hmem]
      unfold selRows
      rw [getD_map_indexOf _ _ _ hmem, hgd]
      have hq : ¬q rows[i] := by
        rw [hgd] at hp
        exact ((hpq rows[i] (List.getElem_mem hi)).mp hp)
      rw [if_neg hq]
    · have hq : q (rows.getD i d) := by
        rw [hgd] at hp ⊢
        by_contra hq
        exact hp ((hpq rows[i] (List.getElem_mem hi)).mpr hq)
      have hmem : ¬i ∈ idxWhere d rows p := fun hmem =>
        hp (mem_idxWhere.mp hmem).2
      have hmem2 : i ∈ idxWhere d rows q := mem_idxWhere.mpr ⟨hi, hq⟩
      rw [if_neg hmem]
      unfold selRows
      rw [List.map_map, getD_map_indexOf _ _ _ hmem2]
      rw [hgd] at hq
      simp only [Function.comp_apply, hgd, if_pos hq]
  · unfold idxWhere
    have hcongr : (List.range rows.length).filter
          (fun i => decide (q (rows.getD i d))) =
        (List.range rows.length).filter
          (fun i => !decide (p (rows.getD i d))) := by
      refine List.filter_congr fun i hi => ?_
      have hi2 : i < rows.length := List.mem_range.mp hi
      have hmem : rows.getD i d ∈ rows := by
        rw [List.getD_eq_getElem _ _ hi2]
        exact List.getElem_mem hi2
      rcases hpq _ hmem with h
      by_cases hp : p (rows.getD i d)
      · have h2 : ¬q (rows.getD i d) := h.mp hp
        show decide (q (rows.getD i d)) = !decide (p (rows.getD i d))
        rw [decide_eq_false h2, decide_eq_true hp]
        rfl
      · have h2 : q (rows.getD i d) := by
          by_contra hq
          exact hp (h.mpr hq)
        show decide (q (rows.getD i d)) = !decide (p (rows.getD i d))
        rw [decide_eq_true h2, decide_eq_false hp]
        rfl
    rw [hcongr]
    have hperm := List.filter_append_perm
      (fun i => decide (p (rows.getD i d))) (List.range rows.length)
    have := hperm.length_eq
    simpa [List.length_append] using this

/-- C7 counterexample row: an outage converter with nonzero active power
setpoint. -/
def cvxRow : ConvRow := fun c => if c = PCONV then 5 else 0

/-- C7 counterexample matrix. -/
def cvx : List ConvRow := [cvxRow]

/-- C7 counterexample: `convout` zeroes PCONV/QCONV on the outage subset
(convout.py lines 57-58), so placing the subsets back at their original
indices does not reconstruct the original converter matrix exactly. -/
theorem C7_counterexample :
    convout cvx = Except.ok ([], [], [resetPQ cvxRow], [0]) ∧
    placeBack convDefault cvx.length [] [] [0] [resetPQ cvxRow] ≠ cvx :=
  ⟨rfl, by decide⟩

/-- C7 (amended): with status flags in {0,1}, the operating and outage
subsets placed back at their retained original row indices reconstruct the
DC branch matrix and the generator matrix exactly, and reconstruct the
converter matrix exactly in all columns except PCONV and QCONV of the
outage rows, which come back zeroed; in all three cases the subset row
counts sum to the original row count. -/
theorem C7_theorem (brch : List BrchRow) (cv : List ConvRow)
    (gens : List GenRow)
    (bop : List BrchRow) (bopI : List ℕ) (bout : List BrchRow)
    (boutI : List ℕ) (cop : List ConvRow) (copI : List ℕ)
    (cout : List ConvRow) (coutI : List ℕ)
    (gop : List GenRow) (gopI : List ℕ) (gout : List GenRow)
    (goutI : List ℕ)
    (hgall : ∀ r ∈ gens, r GEN_STATUS = 0 ∨ r GEN_STATUS = 1)
    (hb : brchdcout brch = Except.ok (bop, bopI, bout, boutI))
    (hc : convout cv = Except.ok (cop, copI, cout, coutI))
    (hg : genout gens = (gop, gopI, gout, goutI)) :
    placeBack brchDefault brch.length bopI bop boutI bout = brch ∧
    bopI.length + boutI.length = brch.length ∧
    placeBack convDefault cv.length copI cop coutI cout =
      cv.map (fun r => if r CONVSTATUS = 0 then resetPQ r else r) ∧
    copI.length + coutI.length = cv.length ∧
    placeBack genDefault gens.length gopI gop goutI gout = gens ∧
    gopI.length + goutI.length = gens.length := by
  unfold brchdcout at hb
  unfold convout at hc
  unfold genout at hg
  split at hb
  case isFalse => exact absurd hb (by simp)
  case isTrue hall =>
    split at hc
    case isFalse => exact absurd hc (by simp)
    case isTrue hallc =>
      rw [Except.ok.injEq, Prod.mk.injEq, Prod.mk.injEq, Prod.mk.injEq]
        at hb hc
      rw [Prod.mk.injEq, Prod.mk.injEq, Prod.mk.injEq] at hg
      obtain ⟨hb1, hb2, hb3, hb4⟩ := hb
      obtain ⟨hc1, hc2, hc3, hc4⟩ := hc
      obtain ⟨hg1, hg2, hg3, hg4⟩ := hg
      subst hb1; subst hb2; subst hb3; subst hb4
      subst hc1; subst hc2; subst hc3; subst hc4
      subst hg1; subst hg2; subst hg3; subst hg4
      have hbs := placeBack_split brchDefault brch
        (fun r => r BRDC_STATUS = 1) (fun r => r BRDC_STATUS = 0) id
        (fun r hr => by
          rcases hall r hr with h | h <;> simp [h])
      have hcs := placeBack_split convDefault cv
        (fun r => r CONVSTATUS = 1) (fun r => r CONVSTATUS = 0) resetPQ
        (fun r hr => by
          rcases hallc r hr with h | h <;> simp [h])
      have hgs := placeBack_split genDefault gens
        (fun r => 0 < r GEN_STATUS) (fun r => r GEN_STATUS = 0) id
        (fun r hr => by
          rcases hgall r hr with h | h <;> simp [h])
      refine ⟨?_, hbs.2, ?_, hcs.2, ?_, hgs.2⟩
      · have h1 := hbs.1
        rw [List.map_id] at h1
        have h2 : brch.map
            (fun r => if r BRDC_STATUS = 0 then id r else r) = brch := by
          rw [show (fun (r : BrchRow) =>
              if r BRDC_STATUS = 0 then id r else r) = id from
            funext fun r => by simp]
          exact List.map_id brch
        exact h1.trans h2
      · exact hcs.1
      · have h1 := hgs.1
        rw [List.map_id] at h1
        have h2 : gens.map
            (fun r => if r GEN_STATUS = 0 then id r else r) = gens := by
          rw [show (fun (r : GenRow) =>
              if r GEN_STATUS = 0 then id r else r) = id from
            funext fun r => by simp]
          exact List.map_id gens
        exact h1.trans h2

/-- Witness operating branch row (status 1, resistance 7). -/
def wbrA : BrchRow := fun c =>
  if c = BRDC_STATUS then 1 else if c = BRDC_R then 7 else 0

/-- Witness outage branch row (status 0, resistance 9). -/
def wbrB : BrchRow := fun c => if c = BRDC_R then 9 else 0

/-- Witness branch matrix. -/
def wbr : List BrchRow := [wbrA, wbrB]

/-- Witness operating converter row (status 1, PCONV 2). -/
def wcvA : ConvRow := fun c =>
  if c = CONVSTATUS then 1 else if c = PCONV then 2 else 0

/-- Witness outage converter row (status 0, QCONV 3). -/
def wcvB : ConvRow := fun c => if c = QCONV then 3 else 0

/-- Witness converter matrix. -/
def wcv : List ConvRow := [wcvA, wcvB]

/-- Witness operating generator row (status 1, PG 4 in column 1). -/
def wgA : GenRow := fun c =>
  if c = GEN_STATUS then 1 else if c = 1 then 4 else 0

/-- Witness outage generator row (status 0, QG 6 in column 2). -/
def wgB : GenRow := fun c => if c = 2 then 6 else 0

/-- Witness generator matrix. -/
def wg : List GenRow := [wgA, wgB]

/-- C7 witness: the amended recombination property evaluated on the
two-row witness matrices. -/
theorem C7_witness :
    placeBack brchDefault wbr.length [0] [wbrA] [1] [wbrB] = wbr ∧
    ([0] : List ℕ).length + ([1] : List ℕ).length = wbr.length ∧
    placeBack convDefault wcv.length [0] [wcvA] [1] [resetPQ wcvB] =
      wcv.map (fun r => if r CONVSTATUS = 0 then resetPQ r else r) ∧
    ([0] : List ℕ).length + ([1] : List ℕ).length = wcv.length ∧
    placeBack genDefault wg.length [0] [wgA] [1] [wgB] = wg ∧
    ([0] : List ℕ).length + ([1] : List ℕ).length = wg.length :=
  C7_theorem wbr wcv wg [wbrA] [0] [wbrB] [1] [wcvA] [0] [resetPQ wcvB] [1]
    [wgA] [0] [wgB] [1] (by decide) rfl rfl (by decide)

/-! ## Converter loss model (src/PyACDC/calclossac.py)

One converter entry of `calclossac`: the mode indicators
`rectifier = (sign(Pc) > 0)`, `inverter = (sign(Pc) < 0)` (lines 47-49),
the selected quadratic coefficient
`c_mtx = rectifier*losscr + inverter*lossci` (line 53), the current
`Ic = sqrt(Pc^2 + Qc^2) / |Vc|` (line 57) and the loss polynomial
`Ploss = a + b*Ic + c_mtx*Ic^2` (line 60).  The function parameter `sq`
abstracts `np.sqrt`; the complex magnitude `np.abs(Vc)` is
`sq (Vre^2 + Vim^2)`. -/

/-- The function `calclossac` on one converter entry (lines 9-62). -/
def calclossac (sq : ℚ → ℚ)
    (Pc Qc Vre Vim lossa lossb losscr lossci : ℚ) : ℚ :=
  let rectifier : ℚ := if 0 < Pc then 1 else 0
  let inverter : ℚ := if Pc < 0 then 1 else 0
  let cmtx := rectifier * losscr + inverter * lossci
  let VMc := sq (Vre ^ 2 + Vim ^ 2)
  let Ic := sq (Pc ^ 2 + Qc ^ 2) / VMc
  lossa + lossb * Ic + cmtx * Ic ^ 2

/-! ### Claims C8 and C10: loss formula and mode selection -/

/-- C8: with nonzero active power, the converter loss is
`a + b*Ic + c_mode*Ic^2` with `Ic = sqrt(Pc^2+Qc^2)/|Vc|`, where `c_mode`
is the rectifier coefficient for `Pc > 0` and the inverter coefficient for
`Pc < 0`. -/
theorem C8_theorem (sq : ℚ → ℚ)
    (Pc Qc Vre Vim lossa lossb losscr lossci : ℚ)
    (h : 0 < Pc ∨ Pc < 0) :
    calclossac sq Pc Qc Vre Vim lossa lossb losscr lossci =
      lossa + lossb * (sq (Pc ^ 2 + Qc ^ 2) / sq (Vre ^ 2 + Vim ^ 2)) +
        (if 0 < Pc then losscr else lossci) *
          (sq (Pc ^ 2 + Qc ^ 2) / sq (Vre ^ 2 + Vim ^ 2)) ^ 2 := by
  unfold calclossac
  rcases h with h | h
  · rw [if_pos h, if_pos h, if_neg (not_lt.mpr (le_of_lt h))]
    ring
  · rw [if_neg (not_lt.mpr (le_of_lt h)), if_neg (not_lt.mpr (le_of_lt h)),
      if_pos h]
    ring

/-- Square-root stand-in fixing the values needed by the loss witnesses. -/
def sqw : ℚ → ℚ := fun x =>
  if x = 25 then 5 else if x = 16 then 4 else if x = 1 then 1 else 0

/-- C8 witness: the loss formula evaluated at `Pc = 3 > 0`. -/
theorem C8_witness :
    calclossac sqw 3 4 1 0 2 3 4 7 =
      2 + 3 * (sqw (3 ^ 2 + 4 ^ 2) / sqw (1 ^ 2 + 0 ^ 2)) +
        (if (0 : ℚ) < 3 then 4 else 7) *
          (sqw (3 ^ 2 + 4 ^ 2) / sqw (1 ^ 2 + 0 ^ 2)) ^ 2 :=
  C8_theorem sqw 3 4 1 0 2 3 4 7 (Or.inl (by norm_num))

/-- C10: with `Pc = 0` neither mode indicator fires, the effective
quadratic coefficient is 0, and the loss reduces to `a + b*Ic`
independently of the supplied `losscr` and `lossci`. -/
theorem C10_theorem (sq : ℚ → ℚ)
    (Pc Qc Vre Vim lossa lossb losscr lossci : ℚ) (h : Pc = 0) :
    calclossac sq Pc Qc Vre Vim lossa lossb losscr lossci =
      lossa + lossb * (sq (Pc ^ 2 + Qc ^ 2) / sq (Vre ^ 2 + Vim ^ 2)) := by
  subst h
  simp [calclossac]

/-- C10 witness: the quadratic term vanishes at `Pc = 0` even with
distinct nonzero rectifier and inverter coefficients. -/
theorem C10_witness :
    calclossac sqw 0 4 1 0 2 5 4 7 =
      2 + 5 * (sqw (0 ^ 2 + 4 ^ 2) / sqw (1 ^ 2 + 0 ^ 2)) :=
  C10_theorem sqw 0 4 1 0 2 5 4 7 rfl

/-! ## Converter limit check (src/PyACDC/convlim.py, lines 213-280)

The limit check and the epslim override are a pure function of the
operating point `(Ps, Qs)` and of circle parameters derived upstream
(lines 46-211) from quantities that do not depend on `Ss`: the active
power range `[Pmin, Pmax]` with its reactive endpoints `QPmin`/`QPmax`,
the current-limit circle `MPL1 = mP + i*mQ` with radius `rL1`, the grid
voltage magnitude `Vsm`, the converter voltage limits and the
pi-equivalent admittance components `G2, B2, G12, B12`.  `sq` abstracts
`np.sqrt` (and thereby the complex magnitude and `cos(arcsin x)
= sqrt(1 - x^2)`). -/

/-- Circle parameters feeding the limit check of convlim.py. -/
structure LimParams where
  Pmin : ℚ
  Pmax : ℚ
  QPmin : ℚ
  QPmax : ℚ
  mP : ℚ
  mQ : ℚ
  rL1 : ℚ
  Vsm : ℚ
  Vcmin : ℚ
  Vcmax : ℚ
  G2 : ℚ
  B2 : ℚ
  G12 : ℚ
  B12 : ℚ

/-- Current-limit circle clamp `Qs1` (lines 216-219): the upper branch of
the circle when `Qs` is above the circle center, the lower branch
otherwise. -/
def qs1 (sq : ℚ → ℚ) (p : LimParams) (Ps Qs : ℚ) : ℚ :=
  if p.mQ < Qs then p.mQ + sq (p.rL1 ^ 2 - (Ps - p.mP) ^ 2)
  else p.mQ - sq (p.rL1 ^ 2 - (Ps - p.mP) ^ 2)

/-- Voltage-limit circle clamp `Qs2` (lines 222-230) at converter voltage
limit `Vclim`; the source's `cos(arcsin sinDd)` is `sq (1 - sinDd^2)`. -/
def qs2 (sq : ℚ → ℚ) (p : LimParams) (Vclim Ps : ℚ) : ℚ :=
  let a := 1 + (p.B2 / p.G2) ^ 2
  let b := -2 * p.B2 / p.G2 * (Ps + p.Vsm ^ 2 * p.G12) /
    (p.Vsm * Vclim * p.G2)
  let c := ((Ps + p.Vsm ^ 2 * p.G12) / (p.Vsm * Vclim * p.G2)) ^ 2 - 1
  let sinDd := (-b + sq (b ^ 2 - 4 * a * c)) / (2 * a)
  p.Vsm ^ 2 * p.B12 +
    p.Vsm * Vclim * (p.G2 * sinDd - p.B2 * sq (1 - sinDd ^ 2))

/-- The limit check of lines 213-260: inside the active power band, clamp
the reactive power against the current-limit circle and the two
voltage-limit circles (violation code 1); outside it, clamp the active
power to the band edge with its associated reactive power (violation
code 2). -/
def limitCheck (sq : ℚ → ℚ) (p : LimParams) (Ps Qs : ℚ) : ℕ × ℚ × ℚ :=
  if p.Pmin < Ps ∧ Ps < p.Pmax then
    if p.mQ < Qs then
      if min (qs1 sq p Ps Qs) (qs2 sq p p.Vcmax Ps) < Qs then
        (1, Ps, min (qs1 sq p Ps Qs) (qs2 sq p p.Vcmax Ps))
      else if Qs < qs2 sq p p.Vcmin Ps then (1, Ps, qs2 sq p p.Vcmin Ps)
      else (0, Ps, Qs)
    else
      if Qs < max (qs1 sq p Ps Qs) (qs2 sq p p.Vcmin Ps) then
        (1, Ps, max (qs1 sq p Ps Qs) (qs2 sq p p.Vcmin Ps))
      else if qs2 sq p p.Vcmax Ps < Qs then (1, Ps, qs2 sq p p.Vcmax Ps)
      else (0, Ps, Qs)
  else if Ps ≤ p.Pmin then (2, p.Pmin, p.QPmin)
  else (2, p.Pmax, p.QPmax)

/-- The limit check followed by the noise suppression of lines 262-267:
a correction of magnitude below `epslim` resets the violation code
to 0. -/
def convlimCore (sq : ℚ → ℚ) (p : LimParams) (epslim Ps Qs : ℚ) :
    ℕ × ℚ × ℚ :=
  if sq ((Ps - (limitCheck sq p Ps Qs).2.1) ^ 2 +
      (Qs - (limitCheck sq p Ps Qs).2.2) ^ 2) < epslim then
    (0, (limitCheck sq p Ps Qs).2.1, (limitCheck sq p Ps Qs).2.2)
  else limitCheck sq p Ps Qs

/-! ### Claim C9: noise suppression and second-call stability -/

/-- The in-band reactive clamp as a standalone map. -/
def clampQ (mQ A D lo hi Qs : ℚ) : ℚ :=
  if mQ < Qs then
    if min A hi < Qs then min A hi
    else if Qs < lo then lo else Qs
  else
    if Qs < max D lo then max D lo
    else if hi < Qs then hi else Qs

/-- The epslim override never changes the corrected operating point. -/
lemma convlimCore_point (sq : ℚ → ℚ) (p : LimParams) (e Ps Qs : ℚ) :
    (convlimCore sq p e Ps Qs).2 = (limitCheck sq p Ps Qs).2 := by
  unfold convlimCore
  split
  · rfl
  · rfl

/-- Inside the active power band the limit check keeps `Ps` and clamps
`Qs` through `clampQ` with the branch-selected current-circle values. -/
lemma limitCheck_inband (sq : ℚ → ℚ) (p : LimParams) (Ps Qs : ℚ)
    (hin : p.Pmin < Ps ∧ Ps < p.Pmax) :
    (limitCheck sq p Ps Qs).2 =
      (Ps, clampQ p.mQ (p.mQ + sq (p.rL1 ^ 2 - (Ps - p.mP) ^ 2))
        (p.mQ - sq (p.rL1 ^ 2 - (Ps - p.mP) ^ 2))
        (qs2 sq p p.Vcmin Ps) (qs2 sq p p.Vcmax Ps) Qs) := by
  unfold limitCheck clampQ qs1
  rw [if_pos hin]
  by_cases h : p.mQ < Qs <;> simp only [h, if_true, if_false] <;>
    split_ifs <;> rfl

/-- Idempotence of the in-band reactive clamp under the geometric sanity
conditions: the circle center lies below the upper circle branch and the
upper voltage circle, above the lower circle branch, and the lower
voltage circle bound lies below the two upper bounds. -/
lemma clampQ_idem (mQ A D lo hi Qs : ℚ) (hA : mQ ≤ A) (hD : D ≤ mQ)
    (h1 : lo ≤ A) (h2 : lo ≤ hi) (h3 : D ≤ hi) (h4 : mQ ≤ hi) :
    clampQ mQ A D lo hi (clampQ mQ A D lo hi Qs) =
      clampQ mQ A D lo hi Qs := by
  have hloA : lo ≤ min A hi := le_min h1 h2
  have hDhi : max D lo ≤ hi := max_le h3 h2
  unfold clampQ
  by_cases h : mQ < Qs
  · rw [if_pos h]
    by_cases hU1 : min A hi < Qs
    · rw [if_pos hU1]
      by_cases hm : mQ < min A hi
      · rw [if_pos hm, if_neg (lt_irrefl _), if_neg (not_lt.mpr hloA)]
      · rw [if_neg hm]
        have hmm : min A hi = mQ :=
          le_antisymm (not_lt.mp hm) (le_min hA h4)
        have hmax : max D lo ≤ min A hi :=
          max_le (hD.trans (le_min hA h4)) hloA
        rw [if_neg (not_lt.mpr hmax),
          if_neg (not_lt.mpr (min_le_right A hi))]
    · rw [if_neg hU1]
      by_cases hU2 : Qs < lo
      · rw [if_pos hU2]
        have hmlo : mQ < lo := h.trans hU2
        rw [if_pos hmlo, if_neg (not_lt.mpr hloA), if_neg (lt_irrefl _)]
      · rw [if_neg hU2, if_pos h, if_neg hU1, if_neg hU2]
  · rw [if_neg h]
    by_cases hL1 : Qs < max D lo
    · rw [if_pos hL1]
      by_cases hm : mQ < max D lo
      · have hMlo : max D lo = lo := by
          rcases max_choice D lo with hc | hc
          · rw [hc] at hm
            exact absurd hm (not_lt.mpr hD)
          · exact hc
        rw [if_pos hm, hMlo, if_neg (not_lt.mpr hloA), if_neg (lt_irrefl _)]
      · rw [if_neg hm, if_neg (lt_irrefl _), if_neg (not_lt.mpr hDhi)]
    · rw [if_neg hL1]
      by_cases hL2 : hi < Qs
      · exact absurd hL2 (not_lt.mpr ((not_lt.mp h).trans h4))
      · rw [if_neg hL2, if_neg h, if_neg hL1, if_neg hL2]

/-- The corrected operating point is a fixed point of the limit check. -/
lemma limitCheck_point_idem (sq : ℚ → ℚ) (p : LimParams) (Ps Qs : ℚ)
    (Hpm : p.Pmin < p.Pmax) (Hs : ∀ x, 0 ≤ sq x)
    (hb1 : p.Pmin < Ps → Ps < p.Pmax → qs2 sq p p.Vcmin Ps ≤
      p.mQ + sq (p.rL1 ^ 2 - (Ps - p.mP) ^ 2))
    (hb2 : p.Pmin < Ps → Ps < p.Pmax →
      qs2 sq p p.Vcmin Ps ≤ qs2 sq p p.Vcmax Ps)
    (hb3 : p.Pmin < Ps → Ps < p.Pmax →
      p.mQ - sq (p.rL1 ^ 2 - (Ps - p.mP) ^ 2) ≤ qs2 sq p p.Vcmax Ps)
    (hb4 : p.Pmin < Ps → Ps < p.Pmax → p.mQ ≤ qs2 sq p p.Vcmax Ps) :
    (limitCheck sq p (limitCheck sq p Ps Qs).2.1
      (limitCheck sq p Ps Qs).2.2).2 = (limitCheck sq p Ps Qs).2 := by
  by_cases hin : p.Pmin < Ps ∧ Ps < p.Pmax
  · have hfirst := limitCheck_inband sq p Ps Qs hin
    rw [hfirst]
    have hsecond := limitCheck_inband sq p Ps
      (clampQ p.mQ (p.mQ + sq (p.rL1 ^ 2 - (Ps - p.mP) ^ 2))
        (p.mQ - sq (p.rL1 ^ 2 - (Ps - p.mP) ^ 2))
        (qs2 sq p p.Vcmin Ps) (qs2 sq p p.Vcmax Ps) Qs) hin
    rw [hsecond]
    rw [clampQ_idem _ _ _ _ _ _
      (by linarith [Hs (p.rL1 ^ 2 - (Ps - p.mP) ^ 2)])
      (by linarith [Hs (p.rL1 ^ 2 - (Ps - p.mP) ^ 2)])
      (hb1 hin.1 hin.2) (hb2 hin.1 hin.2) (hb3 hin.1 hin.2)
      (hb4 hin.1 hin.2)]
  · have hout : limitCheck sq p Ps Qs =
        if Ps ≤ p.Pmin then (2, p.Pmin, p.QPmin)
        else (2, p.Pmax, p.QPmax) := by
      unfold limitCheck
      rw [if_neg hin]
    rw [hout]
    by_cases hle : Ps ≤ p.Pmin
    · rw [if_pos hle]
      unfold limitCheck
      rw [if_neg (fun hc => lt_irrefl _ hc.1), if_pos le_rfl]
    · rw [if_neg hle]
      unfold limitCheck
      rw [if_neg (fun hc => lt_irrefl _ hc.2), if_neg (not_le.mpr Hpm)]

/-- C9: under valid limits (`Vcmin < Vcmax`, nonempty active power band),
a nonnegative square root with `sq 0 = 0`, a positive noise threshold and
the geometric sanity of the reactive band, the limit check (i) returns
violation code 0 whenever the correction magnitude is below `epslim`, and
(ii) returns violation code 0 on a second call with the corrected
operating point of a first call. -/
theorem C9_theorem (sq : ℚ → ℚ) (p : LimParams) (epslim Ps Qs : ℚ)
    (Hv : p.Vcmin < p.Vcmax) (Hpm : p.Pmin < p.Pmax)
    (Hs : ∀ x, 0 ≤ sq x) (Hsq0 : sq 0 = 0) (Heps : 0 < epslim)
    (hb1 : p.Pmin < Ps → Ps < p.Pmax → qs2 sq p p.Vcmin Ps ≤
      p.mQ + sq (p.rL1 ^ 2 - (Ps - p.mP) ^ 2))
    (hb2 : p.Pmin < Ps → Ps < p.Pmax →
      qs2 sq p p.Vcmin Ps ≤ qs2 sq p p.Vcmax Ps)
    (hb3 : p.Pmin < Ps → Ps < p.Pmax →
      p.mQ - sq (p.rL1 ^ 2 - (Ps - p.mP) ^ 2) ≤ qs2 sq p p.Vcmax Ps)
    (hb4 : p.Pmin < Ps → Ps < p.Pmax → p.mQ ≤ qs2 sq p p.Vcmax Ps) :
    (sq ((Ps - (limitCheck sq p Ps Qs).2.1) ^ 2 +
        (Qs - (limitCheck sq p Ps Qs).2.2) ^ 2) < epslim →
      (convlimCore sq p epslim Ps Qs).1 = 0) ∧
    (convlimCore sq p epslim (convlimCore sq p epslim Ps Qs).2.1
      (convlimCore sq p epslim Ps Qs).2.2).1 = 0 := by
  constructor
  · intro h
    unfold convlimCore
    rw [if_pos h]
  · have hpt : (convlimCore sq p epslim Ps Qs).2.1 =
        (limitCheck sq p Ps Qs).2.1 := by
      rw [convlimCore_point]
    have hpt2 : (convlimCore sq p epslim Ps Qs).2.2 =
        (limitCheck sq p Ps Qs).2.2 := by
      rw [convlimCore_point]
    rw [hpt, hpt2]
    have hidem := limitCheck_point_idem sq p Ps Qs Hpm Hs hb1 hb2 hb3 hb4
    have hid1 : (limitCheck sq p (limitCheck sq p Ps Qs).2.1
        (limitCheck sq p Ps Qs).2.2).2.1 = (limitCheck sq p Ps Qs).2.1 := by
      rw [hidem]
    have hid2 : (limitCheck sq p (limitCheck sq p Ps Qs).2.1
        (limitCheck sq p Ps Qs).2.2).2.2 = (limitCheck sq p Ps Qs).2.2 := by
      rw [hidem]
    unfold convlimCore
    rw [hid1, hid2]
    rw [if_pos (by
      rw [show ((limitCheck sq p Ps Qs).2.1 - (limitCheck sq p Ps Qs).2.1) ^ 2
          + ((limitCheck sq p Ps Qs).2.2 - (limitCheck sq p Ps Qs).2.2) ^ 2 =
          0 by ring, Hsq0]
      exact Heps)]

/-- Witness circle parameters: current circle centered at the origin with
radius 1, voltage circles with reactive bounds 1 and 2, power band
`(-1, 1)`. -/
def pw : LimParams where
  Pmin := -1
  Pmax := 1
  QPmin := 0
  QPmax := 0
  mP := 0
  mQ := 0
  rL1 := 1
  Vsm := 1
  Vcmin := 1
  Vcmax := 2
  G2 := 1
  B2 := 0
  G12 := 0
  B12 := 0

/-- Square-root stand-in for the limit-check witness. -/
def sqw2 : ℚ → ℚ := fun x => if x = 4 then 2 else if x = 1 then 1 else 0

/-- C9 witness: the noise-suppression and second-call properties at the
operating point `(0, 3)`, which violates the current limit and is clamped
to `(0, 1)`. -/
theorem C9_witness :
    (sqw2 ((0 - (limitCheck sqw2 pw 0 3).2.1) ^ 2 +
        (3 - (limitCheck sqw2 pw 0 3).2.2) ^ 2) < 1 →
      (convlimCore sqw2 pw 1 0 3).1 = 0) ∧
    (convlimCore sqw2 pw 1 (convlimCore sqw2 pw 1 0 3).2.1
      (convlimCore sqw2 pw 1 0 3).2.2).1 = 0 :=
  C9_theorem sqw2 pw 1 0 3 (by norm_num [pw]) (by norm_num [pw])
    (fun x => by unfold sqw2; split_ifs <;> norm_num)
    (by norm_num [sqw2]) (by norm_num)
    (fun h1 h2 => by norm_num [qs2, sqw2, pw])
    (fun h1 h2 => by norm_num [qs2, sqw2, pw])
    (fun h1 h2 => by norm_num [qs2, sqw2, pw])
    (fun h1 h2 => by norm_num [qs2, sqw2, pw])

end PyACDC
